import Mathlib

set_option maxHeartbeats 1000000

/-!
Verification of the Nutanix CLI utilities repository (lucascd2/ntnx).

Shallow embedding of the API-version-fallback VM enumeration logic:
  - `VmList`  models src/vm-list/get_vms_interactive.py (class NutanixVMClient)
  - `CMove`   models src/VM-Container-Move/list_vms.py (class NutanixAPIClient)
  - `NetCat`  models src/net-category/vm_category_assigner_final.py

HTTP traffic is modelled by server functions from endpoint (and attempt
index) to a response; sleeps are modelled by accumulating the slept
durations in a list; Python exceptions are modelled with Option/Except.
-/

namespace Ntnx

/-- Common page shape used by every enumerator in the repository after
conversion to the v4 envelope: a `data` list plus the
`totalAvailableResults` metadata entry.  In the source the total is read
with `metadata.get(...)`, so an absent key yields `None` (falsy) in
`list_vms.py` and the explicit default `0` in `get_vms_interactive.py`;
both are encoded here as `total = 0`, which is exactly the set of values
on which the truthiness tests of the source are false. -/
structure Page (α : Type) where
  data : List α
  total : Nat
  deriving Repr, DecidableEq

namespace VmList

/-- The keys of `NutanixVMClient.api_endpoints`, in dict insertion order
(v4.1, v4.0, v3.1, v3.0, v2.0). -/
inductive IVer
  | v41 | v40 | v31 | v30 | v20
  deriving DecidableEq, Repr

/-- Iteration order of `self.api_endpoints.items()` in
`discover_api_version` (Python dicts preserve insertion order). -/
def api_endpoints_order : List IVer := [.v41, .v40, .v31, .v30, .v20]

/-- Outcome of one probe request as seen by `test_api_endpoint`: an HTTP
status code, or a `requests.exceptions.RequestException`. -/
inductive IResp
  | http (status : Nat)
  | netErr
  deriving DecidableEq, Repr

/-- The error tag carried in the dict returned by `test_api_endpoint`
(`authentication_failed`, `not_found`, `HTTP <code>`, `Connection error`). -/
inductive TestErr
  | authFailed | notFound | httpOther (status : Nat) | connError
  deriving DecidableEq, Repr

/-- `NutanixVMClient.test_api_endpoint`: classifies the probe response.
200 yields success; 401 yields the `authentication_failed` error dict;
404 yields `not_found`; any other status yields a generic error; a
request exception yields a connection error. -/
def test_api_endpoint (r : IResp) : Bool × Option TestErr :=
  match r with
  | .http s =>
    if s = 200 then (true, none)
    else if s = 401 then (false, some .authFailed)
    else if s = 404 then (false, some .notFound)
    else (false, some (.httpOther s))
  | .netErr => (false, some .connError)

/-- Result of `NutanixVMClient.discover_api_version`: the selected
version, the string `auth_failed`, or the string `none_found`. -/
inductive DiscoverRes
  | found (v : IVer)
  | authFailed
  | noneFound
  deriving DecidableEq, Repr

/-- The candidate loop of `discover_api_version`.  Returns the result and
the list of candidates actually probed, in order.  On the first success
the candidate is recorded as the working version and the loop returns at
once; on an `authentication_failed` error the whole discovery aborts;
otherwise the next candidate is tried. -/
def discoverAux (probe : IVer → IResp) : List IVer → DiscoverRes × List IVer
  | [] => (.noneFound, [])
  | v :: rest =>
    let t := test_api_endpoint (probe v)
    if t.1 then (.found v, [v])
    else if t.2 = some .authFailed then (.authFailed, [v])
    else
      let r := discoverAux probe rest
      (r.1, v :: r.2)

/-- `NutanixVMClient.discover_api_version`: probes the candidates in the
fixed order of `api_endpoints`. -/
def discover_api_version (probe : IVer → IResp) : DiscoverRes × List IVer :=
  discoverAux probe api_endpoints_order

/-- The pagination loop of `NutanixVMClient.list_vms` with `page_size =
100`.  `get_vms` dispatches on the working version but every branch
requests `api_endpoints[working_api_version]`, so the server function is
indexed by the version used; the trace records (version, page) of every
request issued.  Stops when the page is empty, when the accumulated count
reaches `metadata.get('totalAvailableResults', 0)`, or when the page is
shorter than `page_size`.  `none` models fuel exhaustion only. -/
def list_vms_aux {α : Type} (working : IVer) (srv : IVer → Nat → Page α) :
    Nat → List α → List (IVer × Nat) → Nat → Option (List α × List (IVer × Nat))
  | _, _, _, 0 => none
  | page, acc, tr, fuel+1 =>
    let body := srv working page
    let tr2 := tr ++ [(working, page)]
    if body.data.isEmpty then some (acc, tr2)
    else
      let acc2 := acc ++ body.data
      if body.total ≤ acc2.length ∨ body.data.length < 100 then some (acc2, tr2)
      else list_vms_aux working srv (page+1) acc2 tr2 fuel

/-- `NutanixVMClient.list_vms`, starting from page 0 with an empty
accumulator. -/
def list_vms {α : Type} (working : IVer) (srv : IVer → Nat → Page α)
    (fuel : Nat) : Option (List α × List (IVer × Nat)) :=
  list_vms_aux working srv 0 [] [] fuel

/-- Every request issued by the pagination loop goes to the working
version recorded for the session. -/
theorem list_vms_aux_trace {α : Type} (working : IVer) (srv : IVer → Nat → Page α) :
    ∀ (fuel page : Nat) (acc : List α) (tr : List (IVer × Nat)) res,
      list_vms_aux working srv page acc tr fuel = some res →
      ∀ e ∈ res.2, e ∈ tr ∨ e.1 = working := by
  intro fuel
  induction fuel with
  | zero => intro page acc tr res h; simp [list_vms_aux] at h
  | succ n ih =>
    intro page acc tr res h e he
    rw [list_vms_aux] at h
    by_cases hemp : ((srv working page).data).isEmpty
    · simp only [hemp, if_pos] at h
      cases h
      rcases List.mem_append.mp he with h1 | h1
      · exact Or.inl h1
      · simp at h1; right; rw [h1]
    · simp only [hemp, if_neg, Bool.false_eq_true, not_false_iff] at h
      by_cases hstop : (srv working page).total ≤ (acc ++ (srv working page).data).length ∨
          ((srv working page).data).length < 100
      · rw [if_pos hstop] at h
        cases h
        rcases List.mem_append.mp he with h1 | h1
        · exact Or.inl h1
        · simp at h1; right; rw [h1]
      · rw [if_neg hstop] at h
        rcases ih (page+1) (acc ++ (srv working page).data)
            (tr ++ [(working, page)]) res h e he with h1 | h1
        · rcases List.mem_append.mp h1 with h2 | h2
          · exact Or.inl h2
          · simp at h2; right; rw [h2]
        · exact Or.inr h1

/-- C1: the negotiator probes the candidates in the fixed newest-first
order v4.1, v4.0, v3.1, v3.0, v2.0; given 404 probes for v4.1 and v4.0
and a 200 probe for the first v3 candidate, it records v3.1 as the
working version and returns immediately, having probed exactly
v4.1, v4.0, v3.1 (no remaining candidate); afterwards every request of
every list call in the session goes to v3.1, so v4.1 and v4.0 are never
re-probed. -/
theorem c1_negotiator_selects_v3 (probe : IVer → IResp)
    (h41 : probe .v41 = .http 404) (h40 : probe .v40 = .http 404)
    (h31 : probe .v31 = .http 200) :
    api_endpoints_order = [.v41, .v40, .v31, .v30, .v20] ∧
    discover_api_version probe = (.found .v31, [.v41, .v40, .v31]) ∧
    (∀ (α : Type) (srv : IVer → Nat → Page α) (fuel : Nat) res,
      list_vms .v31 srv fuel = some res → ∀ e ∈ res.2, e.1 = IVer.v31) := by
  refine ⟨rfl, ?_, ?_⟩
  · simp [discover_api_version, api_endpoints_order, discoverAux,
      test_api_endpoint, h41, h40, h31]
  · intro α srv fuel res h e he
    rcases list_vms_aux_trace .v31 srv fuel 0 [] [] res h e he with h1 | h1
    · simp at h1
    · exact h1

/-- Concrete run of `c1_negotiator_selects_v3`: a server that 404s the
v4 endpoints and serves the v3.1 endpoint. -/
def c1probe : IVer → IResp := fun v =>
  match v with
  | .v41 => .http 404
  | .v40 => .http 404
  | .v31 => .http 200
  | .v30 => .http 500
  | .v20 => .http 500

theorem c1_negotiator_selects_v3_witness :
    discover_api_version c1probe = (.found .v31, [.v41, .v40, .v31]) :=
  (c1_negotiator_selects_v3 c1probe rfl rfl rfl).2.1

/-- A server whose first candidate answers 403 and whose second answers
200: used to refute C4 as stated. -/
def c4probe : IVer → IResp := fun v =>
  match v with
  | .v41 => .http 403
  | .v40 => .http 200
  | _ => .http 404

/-- C4 counterexample: a 403 on the first candidate does NOT abort the
negotiation with an authentication error — `test_api_endpoint` only
special-cases 401 — instead the negotiator continues and selects the
second candidate, so a remaining candidate is probed. -/
theorem c4_counterexample_403_continues :
    discover_api_version c4probe = (.found .v40, [.v41, .v40]) ∧
    (discover_api_version c4probe).1 ≠ .authFailed := by
  constructor
  · rfl
  · rw [show (discover_api_version c4probe).1 = .found .v40 from rfl]
    intro h
    cases h

/-- C4 amended: a probe answering HTTP 401 makes the negotiator fail
immediately with the authentication error, without retrying that
candidate and without probing any remaining candidate; a probe answering
HTTP 403, however, is treated as a generic per-candidate failure and the
negotiator continues to the next candidate. -/
theorem c4_amended_auth_handling (probe probe2 : IVer → IResp)
    (h401 : probe .v41 = .http 401)
    (h403 : probe2 .v41 = .http 403) (h200 : probe2 .v40 = .http 200) :
    discover_api_version probe = (.authFailed, [.v41]) ∧
    discover_api_version probe2 = (.found .v40, [.v41, .v40]) := by
  constructor
  · simp [discover_api_version, api_endpoints_order, discoverAux,
      test_api_endpoint, h401]
  · simp [discover_api_version, api_endpoints_order, discoverAux,
      test_api_endpoint, h403, h200]

/-- A server whose first candidate answers 401. -/
def c4probe401 : IVer → IResp := fun v =>
  match v with
  | .v41 => .http 401
  | _ => .http 200

theorem c4_amended_auth_handling_witness :
    discover_api_version c4probe401 = (.authFailed, [.v41]) ∧
    discover_api_version c4probe = (.found .v40, [.v41, .v40]) :=
  c4_amended_auth_handling c4probe401 c4probe rfl rfl rfl

/-- C9: in `NutanixVMClient.list_vms`, if page 0 comes back with exactly
`page_size = 100` records and the response metadata carries no
`totalAvailableResults` (so the `metadata.get` default 0 is used), the
loop breaks after the first page — `len(all_vms) >= total_available`
holds as `100 >= 0` — and returns only the records of page 0, having
issued exactly one request. -/
theorem c9_full_first_page_missing_total {α : Type}
    (working : IVer) (srv : IVer → Nat → Page α) (fuel : Nat)
    (hlen : ((srv working 0).data).length = 100)
    (htot : (srv working 0).total = 0) :
    list_vms working srv (fuel+1) = some ((srv working 0).data, [(working, 0)]) := by
  rw [list_vms, list_vms_aux]
  have hne : ((srv working 0).data).isEmpty = false := by
    rcases h : (srv working 0).data with _ | _
    · rw [h] at hlen; simp at hlen
    · simp
  simp [hne, htot, hlen]

/-- Concrete server for the C9 run: page 0 holds 100 records, no total
reported. -/
def c9srv : IVer → Nat → Page Nat := fun _ _ => ⟨List.replicate 100 7, 0⟩

theorem c9_full_first_page_missing_total_witness :
    list_vms .v41 c9srv 3 = some (List.replicate 100 7, [(.v41, 0)]) :=
  c9_full_first_page_missing_total .v41 c9srv 2 (by simp [c9srv]) rfl

end VmList

namespace CMove

/-- One HTTP exchange as seen by `NutanixAPIClient`: a status code, the
optional integer Retry-After header, and the parsed JSON body; or a
`requests.exceptions.RequestException`. -/
inductive MResp (α : Type)
  | http (status : Nat) (retryAfter : Option Nat) (body : α)
  | netErr
  deriving Repr

/-- The retry loop of `NutanixAPIClient._make_request` with the default
`retries = 3`, `backoff = 1.0`.  The source iterates
`for attempt in range(retries + 1)`; here `attempt` is the loop index and
`left + 1` the number of iterations remaining, so the source predicate
`attempt < retries` is `left` being nonzero.  A 429 sleeps for the
Retry-After value (default 60) and consumes an attempt; an ok response
(`response.ok`, i.e. status < 400) returns its body at once; any other
status or a request exception sleeps `backoff * 2 ** attempt` and
retries, raising after the final attempt.  A 429 on the final attempt
falls off the loop into the trailing unexpected-error raise.  The second
component collects the sleep durations, in order. -/
def make_request_aux {α : Type} (resp : Nat → MResp α) :
    Nat → List Nat → Nat → Except String α × List Nat
  | _, sleeps, 0 => (.error "Unexpected error in request handling", sleeps)
  | attempt, sleeps, left+1 =>
    match resp attempt with
    | .http s ra b =>
      if s = 429 then make_request_aux resp (attempt+1) (sleeps ++ [ra.getD 60]) left
      else if s < 400 then (.ok b, sleeps)
      else if left = 0 then (.error "Request failed after 4 attempts", sleeps)
      else make_request_aux resp (attempt+1) (sleeps ++ [2 ^ attempt]) left
    | .netErr =>
      if left = 0 then (.error "Request failed after 4 attempts", sleeps)
      else make_request_aux resp (attempt+1) (sleeps ++ [2 ^ attempt]) left

/-- `NutanixAPIClient._make_request` at the default four attempts. -/
def make_request {α : Type} (resp : Nat → MResp α) : Except String α × List Nat :=
  make_request_aux resp 0 [] 4

/-- One-step unfolding of the retry loop. -/
theorem make_request_aux_step {α : Type} (resp : Nat → MResp α) (attempt : Nat)
    (sleeps : List Nat) (left : Nat) :
    make_request_aux resp attempt sleeps (left+1) =
      (match resp attempt with
      | .http s ra b =>
        if s = 429 then make_request_aux resp (attempt+1) (sleeps ++ [ra.getD 60]) left
        else if s < 400 then (.ok b, sleeps)
        else if left = 0 then (.error "Request failed after 4 attempts", sleeps)
        else make_request_aux resp (attempt+1) (sleeps ++ [2 ^ attempt]) left
      | .netErr =>
        if left = 0 then (.error "Request failed after 4 attempts", sleeps)
        else make_request_aux resp (attempt+1) (sleeps ++ [2 ^ attempt]) left) := rfl

/-- C5: on a 429 the fetcher sleeps for the Retry-After duration (or the
default 60 when the header is absent) and retries the same request; with
a mocked 429 followed by a 200, the fetch returns the 200 body without
surfacing an error, having slept exactly once for the announced
duration. -/
theorem c5_fetcher_429_retry {α : Type} (resp : Nat → MResp α)
    (ra : Option Nat) (b0 b : α) (ra1 : Option Nat)
    (h0 : resp 0 = .http 429 ra b0) (h1 : resp 1 = .http 200 ra1 b) :
    make_request resp = (.ok b, [ra.getD 60]) := by
  have e0 : make_request resp = make_request_aux resp 0 [] (3+1) := rfl
  rw [e0, make_request_aux_step, h0]
  norm_num
  have e1 : (3 : Nat) = 2 + 1 := rfl
  rw [e1, make_request_aux_step, h1]
  norm_num

/-- Concrete run of `c5_fetcher_429_retry`: first response 429 with
Retry-After 7, second response 200. -/
def c5resp : Nat → MResp Nat := fun a =>
  if a = 0 then .http 429 (some 7) 0 else .http 200 none 99

theorem c5_fetcher_429_retry_witness :
    make_request c5resp = (.ok 99, [7]) :=
  c5_fetcher_429_retry c5resp (some 7) 0 99 none rfl rfl

/-- Concatenation of the data of pages `page, page+1, ..., page+m-1`. -/
def seg_join {α : Type} (srv : Nat → Page α) (page m : Nat) : List α :=
  ((List.range m).map (fun k => (srv (page + k)).data)).flatten

/-- Total number of records on pages `page, ..., page+m-1`. -/
def seg_len {α : Type} (srv : Nat → Page α) (page m : Nat) : Nat :=
  ((List.range m).map (fun k => ((srv (page + k)).data).length)).sum

theorem seg_join_succ {α : Type} (srv : Nat → Page α) (page m : Nat) :
    seg_join srv page (m+1) = (srv page).data ++ seg_join srv (page+1) m := by
  rw [seg_join, seg_join, List.range_succ_eq_map]
  simp only [List.map_cons, List.map_map, List.flatten_cons, Nat.add_zero]
  congr 1
  congr 1
  refine List.map_congr_left ?_
  intro k _
  simp only [Function.comp_apply]
  congr 2
  omega

theorem seg_len_succ {α : Type} (srv : Nat → Page α) (page m : Nat) :
    seg_len srv page (m+1) = ((srv page).data).length + seg_len srv (page+1) m := by
  rw [seg_len, seg_len, List.range_succ_eq_map]
  simp only [List.map_cons, List.map_map, List.sum_cons, Nat.add_zero]
  congr 1
  congr 1
  refine List.map_congr_left ?_
  intro k _
  simp only [Function.comp_apply]
  congr 3
  omega

theorem seg_len_eq_length {α : Type} (srv : Nat → Page α) (page m : Nat) :
    seg_len srv page m = (seg_join srv page m).length := by
  induction m generalizing page with
  | zero => rfl
  | succ m ih =>
    rw [seg_len_succ, seg_join_succ, List.length_append, ih]

theorem seg_len_pos {α : Type} (srv : Nat → Page α) (page m : Nat)
    (hm : 0 < m) (hne : (srv page).data ≠ []) : 0 < seg_len srv page m := by
  rcases Nat.exists_eq_add_of_lt hm with ⟨m', hm'⟩
  have : m = m' + 1 := by omega
  subst this
  rw [seg_len_succ]
  have : 0 < ((srv page).data).length := List.length_pos.mpr hne
  omega

/-- The pagination loop of `NutanixAPIClient.list_all_vms`.  On each page
it calls `get_vms`; an empty `data` list stops before accumulating; after
accumulating, a truthy `totalAvailableResults` that has been reached
stops, and so does a page shorter than the requested `limit`; otherwise
the next page is fetched.  `none` models fuel exhaustion only. -/
def list_all_vms_aux {α : Type} (srv : Nat → Page α) (limit : Nat) :
    Nat → List α → Nat → Option (List α)
  | _, _, 0 => none
  | page, acc, fuel+1 =>
    let vms := (srv page).data
    if vms.isEmpty then some acc
    else
      let acc2 := acc ++ vms
      if (srv page).total ≠ 0 ∧ (srv page).total ≤ acc2.length then some acc2
      else if vms.length < limit then some acc2
      else list_all_vms_aux srv limit (page+1) acc2 fuel

/-- `NutanixAPIClient.list_all_vms`, starting at page 0. -/
def list_all_vms {α : Type} (srv : Nat → Page α) (limit fuel : Nat) :
    Option (List α) :=
  list_all_vms_aux srv limit 0 [] fuel

/-- Main enumeration lemma: if starting from `page` the next `m` pages
are nonempty, all but the last full, with every reported total either
absent (0) or equal to the grand total, and page `page+m` is empty, the
loop returns the accumulator followed by the concatenation of those `m`
pages. -/
theorem list_all_vms_aux_spec {α : Type} (srv : Nat → Page α) (limit : Nat) :
    ∀ (m page : Nat) (acc : List α) (fuel : Nat), m < fuel →
      (srv (page + m)).data = [] →
      (∀ k, k < m → (srv (page + k)).data ≠ []) →
      (∀ k, k + 1 < m → ((srv (page + k)).data).length = limit) →
      (∀ k, k < m → (srv (page + k)).total = 0 ∨
        (srv (page + k)).total = acc.length + seg_len srv page m) →
      list_all_vms_aux srv limit page acc fuel = some (acc ++ seg_join srv page m) := by
  intro m
  induction m with
  | zero =>
    intro page acc fuel hfuel hempty _ _ _
    rcases fuel with _ | f
    · omega
    · rw [list_all_vms_aux]
      simp only [Nat.add_zero] at hempty
      simp [hempty, seg_join]
  | succ m ih =>
    intro page acc fuel hfuel hempty hne hfull htot
    rcases fuel with _ | f
    · omega
    rw [list_all_vms_aux]
    have hd : (srv page).data ≠ [] := by
      have := hne 0 (Nat.succ_pos m); simpa using this
    have hdne : ((srv page).data).isEmpty = false := by
      rcases h : (srv page).data with _ | _
      · exact absurd h hd
      · simp
    have hjoin : seg_join srv page (m+1) = (srv page).data ++ seg_join srv (page+1) m :=
      seg_join_succ srv page m
    simp only [hdne, Bool.false_eq_true, if_false]
    rcases Nat.eq_zero_or_pos m with hm | hm
    · -- the current page is the last nonempty one
      subst hm
      have hj0 : seg_join srv (page+1) 0 = [] := rfl
      have hres : acc ++ seg_join srv page 1 = acc ++ (srv page).data := by
        rw [hjoin, hj0, List.append_nil]
      have hempty1 : (srv (page + 1 + 0)).data = [] := by
        have : page + 1 + 0 = page + 1 := by omega
        rw [this]
        simpa using hempty
      have hrec : list_all_vms_aux srv limit (page+1) (acc ++ (srv page).data) f =
          some (acc ++ (srv page).data) := by
        have h0f : 0 < f := by omega
        have := ih (page+1) (acc ++ (srv page).data) f h0f hempty1
          (by intro k hk; omega) (by intro k hk; omega) (by intro k hk; omega)
        simpa [seg_join] using this
      rw [hres]
      split_ifs with h1 h2
      · rfl
      · rfl
      · exact hrec
    · -- more nonempty pages follow
      have hne1 : (srv (page + 1)).data ≠ [] := by
        have := hne 1 (by omega); simpa using this
      have hslpos : 0 < seg_len srv (page+1) m := by
        apply seg_len_pos srv (page+1) m hm
        simpa using hne1
      have hsl : seg_len srv page (m+1) =
          ((srv page).data).length + seg_len srv (page+1) m :=
        seg_len_succ srv page m
      have hnostop1 : ¬((srv page).total ≠ 0 ∧
          (srv page).total ≤ (acc ++ (srv page).data).length) := by
        rcases htot 0 (by omega) with h0 | h0 <;> simp only [Nat.add_zero] at h0
        · intro hc; exact hc.1 h0
        · intro hc
          have := hc.2
          rw [h0, hsl, List.length_append] at this
          omega
      have hnoshort : ¬(((srv page).data).length < limit) := by
        have := hfull 0 (by omega)
        simp only [Nat.add_zero] at this
        omega
      rw [if_neg hnostop1, if_neg hnoshort]
      have hempty' : (srv (page + 1 + m)).data = [] := by
        have : page + 1 + m = page + (m + 1) := by omega
        rw [this]; exact hempty
      have hne' : ∀ k, k < m → (srv (page + 1 + k)).data ≠ [] := by
        intro k hk
        have : page + 1 + k = page + (k + 1) := by omega
        rw [this]; exact hne (k+1) (by omega)
      have hfull' : ∀ k, k + 1 < m → ((srv (page + 1 + k)).data).length = limit := by
        intro k hk
        have : page + 1 + k = page + (k + 1) := by omega
        rw [this]; exact hfull (k+1) (by omega)
      have htot' : ∀ k, k < m → (srv (page + 1 + k)).total = 0 ∨
          (srv (page + 1 + k)).total =
            (acc ++ (srv page).data).length + seg_len srv (page+1) m := by
        intro k hk
        have heq : page + 1 + k = page + (k + 1) := by omega
        rcases htot (k+1) (by omega) with h0 | h0
        · left; rw [heq]; exact h0
        · right; rw [heq, h0, hsl, List.length_append]; omega
      have := ih (page+1) (acc ++ (srv page).data) f (by omega)
        hempty' hne' hfull' htot'
      rw [this, hjoin]
      simp [List.append_assoc]

/-- C3: given page responses ending in an empty page — every page before
the last nonempty one full, every reported `totalAvailableResults`
either absent (encoded 0) or the true grand total — `list_all_vms`
starting at page 0 returns exactly the concatenation of all nonempty
pages in order; when the pages are individually duplicate-free and
pairwise disjoint the result has no duplicate records; and at each step
the loop stops exactly when (a) the page is empty, (b) a truthy reported
total has been reached by the accumulated count, or (c) the page is
shorter than the requested limit — otherwise it continues with the next
page. -/
theorem c3_enumerate_all_pages {α : Type} (srv : Nat → Page α) (limit n fuel : Nat)
    (hfuel : n < fuel)
    (hempty : (srv n).data = [])
    (hne : ∀ k, k < n → (srv k).data ≠ [])
    (hfull : ∀ k, k + 1 < n → ((srv k).data).length = limit)
    (htot : ∀ k, k < n → (srv k).total = 0 ∨ (srv k).total = seg_len srv 0 n) :
    list_all_vms srv limit fuel = some (seg_join srv 0 n) ∧
    ((∀ k, k < n → ((srv k).data).Nodup) →
      ((List.range n).Pairwise fun i j => ((srv i).data).Disjoint ((srv j).data)) →
      (seg_join srv 0 n).Nodup) ∧
    (∀ (page : Nat) (acc : List α) (f2 : Nat),
      list_all_vms_aux srv limit page acc (f2+1) =
        if ((srv page).data).isEmpty then some acc
        else if (srv page).total ≠ 0 ∧ (srv page).total ≤ (acc ++ (srv page).data).length
          then some (acc ++ (srv page).data)
        else if ((srv page).data).length < limit then some (acc ++ (srv page).data)
        else list_all_vms_aux srv limit (page+1) (acc ++ (srv page).data) f2) := by
  refine ⟨?_, ?_, ?_⟩
  · have := list_all_vms_aux_spec srv limit n 0 [] fuel hfuel
      (by simpa using hempty)
      (by intro k hk; simpa using hne k hk)
      (by intro k hk; simpa using hfull k hk)
      (by intro k hk; simpa using htot k hk)
    simpa [list_all_vms] using this
  · intro hnd hdisj
    rw [seg_join]
    rw [List.nodup_flatten]
    constructor
    · intro l hl
      rcases List.mem_map.mp hl with ⟨k, hk, rfl⟩
      have := hnd k (List.mem_range.mp hk)
      simpa using this
    · rw [List.pairwise_map]
      refine hdisj.imp ?_
      intro i j h
      simpa using h
  · intro page acc f2
    rfl

/-- Concrete fixture for the C3 run: pages [1,2], [3,4], [5], then an
empty page; pages 1 and 2 report the true total 5, page 0 reports no
total. -/
def c3srv : Nat → Page Nat := fun p =>
  if p = 0 then ⟨[1, 2], 0⟩
  else if p = 1 then ⟨[3, 4], 5⟩
  else if p = 2 then ⟨[5], 5⟩
  else ⟨[], 0⟩

theorem c3_enumerate_all_pages_witness :
    list_all_vms c3srv 2 4 = some [1, 2, 3, 4, 5] ∧ List.Nodup [1, 2, 3, 4, 5] := by
  have h := c3_enumerate_all_pages c3srv 2 3 4 (by omega)
    (by simp [c3srv])
    (by intro k hk; interval_cases k <;> simp [c3srv])
    (by intro k hk; have hk2 : k < 2 := by omega
        interval_cases k <;> simp [c3srv])
    (by intro k hk; interval_cases k <;> simp [c3srv, seg_len, List.range_succ])
  have hjoin : seg_join c3srv 0 3 = [1, 2, 3, 4, 5] := by
    simp [seg_join, c3srv, List.range_succ]
  constructor
  · rw [h.1, hjoin]
  · have h2 := h.2.1
      (by intro k hk; interval_cases k <;> simp [c3srv])
      (by
        rw [show List.range 3 = [0, 1, 2] from rfl]
        simp [List.pairwise_cons, List.Disjoint, c3srv])
    rw [hjoin] at h2
    exact h2

/-- `self._vmm_api_versions`: preferred VMM API versions, newest first. -/
def vmm_api_versions : List String := ["v4.1", "v4.0", "v3.0"]

/-- The order of versions attempted by `get_vms`: the cached working
version (whatever string it is) first, then the remaining configured
VMM versions. -/
def versions_to_try (working : Option String) : List String :=
  match working with
  | some w => w :: vmm_api_versions.filter (fun v => v ≠ w)
  | none => vmm_api_versions

/-- Legacy v3 response body: `entities` plus `metadata.total_matches`. -/
structure V3Body (α : Type) where
  entities : List α
  total_matches : Option Nat

/-- Legacy v2 response body: `entities` plus `metadata.total_entities`. -/
structure V2Body (α : Type) where
  entities : List α
  total_entities : Option Nat

/-- Conversion of a legacy v3 body to the v4 envelope done by `get_vms`
(`total_matches` defaulting to 0). -/
def convert_v3 {α : Type} (b : V3Body α) : Page α :=
  ⟨b.entities, b.total_matches.getD 0⟩

/-- Conversion of a legacy v2 body to the v4 envelope done by `get_vms`
(`total_entities` defaulting to the number of entities returned). -/
def convert_v2 {α : Type} (b : V2Body α) : Page α :=
  ⟨b.entities, b.total_entities.getD b.entities.length⟩

/-- A legacy-path exchange: status code and parsed body, or an
exception. -/
inductive LResp (β : Type)
  | http (status : Nat) (body : β)
  | netErr

/-- The server as seen by one `get_vms` call: VMM endpoints indexed by
version string and per-version attempt number; each legacy path receives
at most a single request per call. -/
structure MServer (α : Type) where
  vmm : String → Nat → MResp (Page α)
  legV3 : LResp (V3Body α)
  legV2 : LResp (V2Body α)
  legV2P : LResp (V2Body α)

/-- Endpoints requested during a `get_vms` call, in order: the VMM path
`/vmm/<version>/ahv/config/vms`, or one of the three legacy paths. -/
inductive MEndpoint
  | vmm (v : String)
  | legacyV3
  | legacyV2
  | legacyV2Prism
  deriving DecidableEq, Repr

/-- Outcome of the per-version retry loop inside `get_vms`: a 200-level
body (recorded as the working version by the caller), a fall-through to
the next version, or a raised exception that aborts the whole call. -/
inductive VOut (α : Type)
  | success (body : Page α)
  | moveNext
  | fatal

/-- The per-version retry loop of `get_vms` (`retries = 3`, so four
attempts).  `attempt` is the loop index and `left + 1` the number of
iterations remaining (`attempt < retries` is `left` being nonzero).
A 429 sleeps for Retry-After and consumes an attempt; a 404 breaks out
to the next version at once; an ok (< 400) response returns its body;
any other status or a request exception backs off and retries, raising
after the final attempt.  Exhausting the loop through 429s falls through
to the next version.  Returns the outcome, the number of requests issued
to this version, and whether a request exception was seen (the source
variable `last_exception`). -/
def ver_loop {α : Type} (srv : MServer α) (v : String) :
    Nat → Nat → VOut α × Nat × Bool
  | _, 0 => (.moveNext, 0, false)
  | attempt, left+1 =>
    match srv.vmm v attempt with
    | .http s _ b =>
      if s = 429 then
        let r := ver_loop srv v (attempt+1) left
        (r.1, r.2.1 + 1, r.2.2)
      else if s = 404 then (.moveNext, 1, false)
      else if s < 400 then (.success b, 1, false)
      else if left = 0 then (.fatal, 1, false)
      else
        let r := ver_loop srv v (attempt+1) left
        (r.1, r.2.1 + 1, r.2.2)
    | .netErr =>
      if left = 0 then (.fatal, 1, true)
      else
        let r := ver_loop srv v (attempt+1) left
        (r.1, r.2.1 + 1, true)

/-- One-step unfolding of the per-version retry loop. -/
theorem ver_loop_step {α : Type} (srv : MServer α) (v : String)
    (attempt left : Nat) :
    ver_loop srv v attempt (left+1) =
      (match srv.vmm v attempt with
      | .http s _ b =>
        if s = 429 then
          ((ver_loop srv v (attempt+1) left).1,
            (ver_loop srv v (attempt+1) left).2.1 + 1,
            (ver_loop srv v (attempt+1) left).2.2)
        else if s = 404 then (.moveNext, 1, false)
        else if s < 400 then (.success b, 1, false)
        else if left = 0 then (.fatal, 1, false)
        else
          ((ver_loop srv v (attempt+1) left).1,
            (ver_loop srv v (attempt+1) left).2.1 + 1,
            (ver_loop srv v (attempt+1) left).2.2)
      | .netErr =>
        if left = 0 then (.fatal, 1, true)
        else
          ((ver_loop srv v (attempt+1) left).1,
            (ver_loop srv v (attempt+1) left).2.1 + 1,
            true)) := rfl

/-- Outcome of the whole VMM-versions phase of `get_vms`. -/
inductive PhaseRes (α : Type)
  | success (v : String) (b : Page α)
  | exhausted
  | fatal

/-- The outer loop of `get_vms` over the versions to try: run the retry
loop per version; on success record that version; on fall-through move
to the next version; on a raise abort.  Also returns the request trace
and the accumulated `last_exception` flag. -/
def try_versions {α : Type} (srv : MServer α) :
    List String → PhaseRes α × List MEndpoint × Bool
  | [] => (.exhausted, [], false)
  | v :: rest =>
    let r := ver_loop srv v 0 4
    match r.1 with
    | .success b => (.success v b, List.replicate r.2.1 (.vmm v), r.2.2)
    | .moveNext =>
      let r2 := try_versions srv rest
      (r2.1, List.replicate r.2.1 (.vmm v) ++ r2.2.1, r.2.2 || r2.2.2)
    | .fatal => (.fatal, List.replicate r.2.1 (.vmm v), r.2.2)

/-- One legacy-path attempt in `get_vms`: an ok response is converted
and returned; any other status (404 included) and any exception just
moves on to the next path. -/
def leg_try {α β : Type} (r : LResp β) (conv : β → Page α) : Option (Page α) :=
  match r with
  | .http s b => if s < 400 then some (conv b) else none
  | .netErr => none

/-- The legacy phase of `get_vms`: the v3 path (recording working
version v3.0 on success), then the two v2 paths (recording v2.0).
Returns the successful version and converted page, if any, plus the
trace of legacy endpoints attempted. -/
def legacy_phase {α : Type} (srv : MServer α) :
    Option (String × Page α) × List MEndpoint :=
  match leg_try srv.legV3 convert_v3 with
  | some pg => (some ("v3.0", pg), [.legacyV3])
  | none =>
    match leg_try srv.legV2 convert_v2 with
    | some pg => (some ("v2.0", pg), [.legacyV3, .legacyV2])
    | none =>
      match leg_try srv.legV2P convert_v2 with
      | some pg => (some ("v2.0", pg), [.legacyV3, .legacyV2, .legacyV2Prism])
      | none => (none, [.legacyV3, .legacyV2, .legacyV2Prism])

/-- The exceptions `get_vms` can raise: a per-version raise after
exhausted retries, or the two end-of-function raises (`All API endpoints
failed` when a request exception was recorded, `No working API
endpoints found` otherwise). -/
inductive MErr
  | requestFailed
  | allEndpointsFailed
  | noWorkingEndpoints
  deriving DecidableEq, Repr

/-- Result of one `NutanixAPIClient.get_vms` call: the returned page or
raised error, the `_working_vmm_version` attribute after the call, and
the trace of endpoints requested. -/
structure GetVmsRes (α : Type) where
  result : Except MErr (Page α)
  working : Option String
  trace : List MEndpoint

/-- `NutanixAPIClient.get_vms`: try the VMM versions in preference
order, then the legacy paths; a success records its version as
`_working_vmm_version`. -/
def get_vms {α : Type} (working : Option String) (srv : MServer α) : GetVmsRes α :=
  let p := try_versions srv (versions_to_try working)
  match p.1 with
  | .success v b => ⟨.ok b, some v, p.2.1⟩
  | .fatal => ⟨.error .requestFailed, working, p.2.1⟩
  | .exhausted =>
    match legacy_phase srv with
    | (some (v, b), tr2) => ⟨.ok b, some v, p.2.1 ++ tr2⟩
    | (none, tr2) =>
      ⟨.error (if p.2.2 then .allEndpointsFailed else .noWorkingEndpoints),
        working, p.2.1 ++ tr2⟩

/-- Classification of one VMM response by the branch of the retry loop
that handles it: rate limited (429), version unsupported (404), ok
(< 400), or transient failure (other statuses and exceptions). -/
inductive MCls
  | okC | notFound | rate | fail
  deriving DecidableEq, Repr

/-- The branch of the retry loop a response falls into. -/
def mcls {α : Type} (r : MResp (Page α)) : MCls :=
  match r with
  | .http s _ _ =>
    if s = 429 then .rate
    else if s = 404 then .notFound
    else if s < 400 then .okC
    else .fail
  | .netErr => .fail

/-- Outcome alphabet of the retry loop, forgetting the body. -/
inductive WOut
  | wok | wmove | wfatal
  deriving DecidableEq, Repr

/-- Abstract walk of the retry loop over a list of response classes:
rate limits consume attempts, a 404 falls through, an ok succeeds, a
transient failure retries unless it is the final attempt, and an
exhausted loop falls through. -/
def walk : List MCls → WOut
  | [] => .wmove
  | c :: rest =>
    match c with
    | .rate => walk rest
    | .notFound => .wmove
    | .okC => .wok
    | .fail => if rest.isEmpty then .wfatal else walk rest

/-- Forget the body of a retry-loop outcome. -/
def vout_class {α : Type} : VOut α → WOut
  | .success _ => .wok
  | .moveNext => .wmove
  | .fatal => .wfatal

/-- The retry loop realises the abstract walk over the classes of the
responses it receives. -/
theorem ver_loop_walk {α : Type} (srv : MServer α) (v : String) :
    ∀ (left attempt : Nat),
      vout_class (ver_loop srv v attempt left).1 =
        walk ((List.range left).map fun i => mcls (srv.vmm v (attempt + i))) := by
  intro left
  induction left with
  | zero => intro attempt; rfl
  | succ l ih =>
    intro attempt
    rw [List.range_succ_eq_map, List.map_cons, List.map_map]
    have hshift : (List.range l).map ((fun i => mcls (srv.vmm v (attempt + i))) ∘ Nat.succ)
        = (List.range l).map fun i => mcls (srv.vmm v (attempt + 1 + i)) := by
      refine List.map_congr_left ?_
      intro k _
      simp only [Function.comp_apply]
      congr 2
      omega
    rw [hshift, ver_loop_step]
    simp only [Nat.add_zero]
    rcases hres : srv.vmm v attempt with ⟨s, ra, b⟩ | _
    · by_cases h429 : s = 429
      · subst h429
        have hc : (mcls (MResp.http 429 ra b) : MCls) = .rate := by
          simp [mcls]
        simp [hres, hc, walk, ih (attempt+1)]
      · by_cases h404 : s = 404
        · subst h404
          have hc : (mcls (MResp.http 404 ra b) : MCls) = .notFound := by
            simp [mcls]
          simp [hres, h429, hc, walk, vout_class]
        · by_cases hok : s < 400
          · have hc : (mcls (MResp.http s ra b) : MCls) = .okC := by
              simp [mcls, h429, h404, hok]
            simp [hres, h429, h404, hok, hc, walk, vout_class]
          · have hc : (mcls (MResp.http s ra b) : MCls) = .fail := by
              simp [mcls, h429, h404, hok]
            rcases l with _ | l2
            · simp [hres, h429, h404, hok, hc, walk, vout_class]
            · simp only [hres, h429, h404, hok, hc, walk, vout_class,
                List.isEmpty_eq_true, List.map_eq_nil_iff, List.range_eq_nil,
                if_neg (Nat.succ_ne_zero l2), Nat.succ_ne_zero, if_false,
                Bool.false_eq_true]
              exact ih (attempt + 1)
    · have hc : (mcls (MResp.netErr : MResp (Page α)) : MCls) = .fail := rfl
      rcases l with _ | l2
      · simp [hres, hc, walk, vout_class]
      · simp only [hres, hc, walk, vout_class,
          List.isEmpty_eq_true, List.map_eq_nil_iff, List.range_eq_nil,
          if_neg (Nat.succ_ne_zero l2), Nat.succ_ne_zero, if_false,
          Bool.false_eq_true]
        exact ih (attempt + 1)

/-- If the walk falls through to the next version, either some response
was a 404 or the final attempt was rate limited. -/
theorem walk_wmove : ∀ (l : List MCls), walk l = .wmove →
    l = [] ∨ MCls.notFound ∈ l ∨ l.getLast? = some .rate := by
  intro l
  induction l with
  | nil => intro _; exact Or.inl rfl
  | cons c rest ih =>
    intro h
    right
    rcases c with _ | _ | _ | _
    · exact absurd h (by simp [walk])
    · exact Or.inl (List.mem_cons_self _ _)
    · simp only [walk] at h
      rcases ih h with h1 | h1 | h1
      · subst h1
        exact Or.inr rfl
      · exact Or.inl (List.mem_cons_of_mem _ h1)
      · right
        rcases rest with _ | ⟨r2, rs⟩
        · simp at h1
        · rw [List.getLast?_cons_cons]
          exact h1
    · rcases rest with _ | ⟨r2, rs⟩
      · simp [walk] at h
      · simp only [walk, List.isEmpty_cons, Bool.false_eq_true, if_false] at h
        rcases ih h with h1 | h1 | h1
        · exact absurd h1 (List.cons_ne_nil _ _)
        · exact Or.inl (List.mem_cons_of_mem _ h1)
        · right
          rw [List.getLast?_cons_cons]
          exact h1

/-- The retry loop always issues at least one request. -/
theorem ver_loop_count_pos {α : Type} (srv : MServer α) (v : String)
    (attempt left : Nat) : 0 < (ver_loop srv v attempt (left+1)).2.1 := by
  rw [ver_loop_step]
  rcases srv.vmm v attempt with ⟨s, ra, b⟩ | _
  · by_cases h1 : s = 429 <;> by_cases h2 : s = 404 <;> by_cases h3 : s < 400 <;>
      by_cases h4 : left = 0 <;> simp [h1, h2, h3, h4]
  · by_cases h4 : left = 0 <;> simp [h4]

/-- Every endpoint in the VMM-phase trace belongs to one of the versions
tried. -/
theorem try_versions_trace_mem {α : Type} (srv : MServer α) :
    ∀ (vs : List String) (e : MEndpoint),
      e ∈ (try_versions srv vs).2.1 → ∃ u ∈ vs, e = .vmm u := by
  intro vs
  induction vs with
  | nil => intro e he; simp [try_versions] at he
  | cons v rest ih =>
    intro e he
    rw [try_versions] at he
    rcases hv : (ver_loop srv v 0 4).1 with b | _ | _ <;> simp only [hv] at he
    · exact ⟨v, List.mem_cons_self _ _, List.eq_of_mem_replicate he⟩
    · rcases List.mem_append.mp he with h1 | h1
      · exact ⟨v, List.mem_cons_self _ _, List.eq_of_mem_replicate h1⟩
      · rcases ih e h1 with ⟨u, hu, he2⟩
        exact ⟨u, List.mem_cons_of_mem _ hu, he2⟩
    · exact ⟨v, List.mem_cons_self _ _, List.eq_of_mem_replicate he⟩

/-- The VMM-phase trace for a nonempty version list starts with the
requests to the first version, and its remainder only mentions later
versions. -/
theorem try_versions_trace_shape {α : Type} (srv : MServer α)
    (v : String) (rest : List String) :
    ∃ t, (try_versions srv (v :: rest)).2.1 =
      List.replicate (ver_loop srv v 0 4).2.1 (MEndpoint.vmm v) ++ t ∧
      ∀ e ∈ t, ∃ u ∈ rest, e = MEndpoint.vmm u := by
  rw [try_versions]
  rcases hv : (ver_loop srv v 0 4).1 with b | _ | _ <;> simp only [hv]
  · exact ⟨[], by simp, by intro e he; simp at he⟩
  · exact ⟨(try_versions srv rest).2.1, rfl, fun e he => try_versions_trace_mem srv rest e he⟩
  · exact ⟨[], by simp, by intro e he; simp at he⟩

/-- The legacy phase never requests a VMM endpoint. -/
theorem legacy_phase_no_vmm {α : Type} (srv : MServer α) (v : String) :
    MEndpoint.vmm v ∉ (legacy_phase srv).2 := by
  rw [legacy_phase]
  rcases leg_try srv.legV3 (convert_v3 (α := α)) with _ | pg
  · rcases leg_try srv.legV2 (convert_v2 (α := α)) with _ | pg2
    · rcases leg_try srv.legV2P (convert_v2 (α := α)) with _ | pg3 <;> simp
    · simp
  · simp

/-- The complete trace of a `get_vms` call is the VMM-phase trace
followed by a tail containing no VMM endpoint. -/
theorem get_vms_trace_split {α : Type} (srv : MServer α) (w : Option String) :
    ∃ t2, (get_vms w srv).trace = (try_versions srv (versions_to_try w)).2.1 ++ t2 ∧
      ∀ v, MEndpoint.vmm v ∉ t2 := by
  rw [get_vms]
  rcases hp : (try_versions srv (versions_to_try w)).1 with ⟨v, b⟩ | _ | _
  · exact ⟨[], by simp, by intro v2; simp⟩
  · rcases hl : legacy_phase srv with ⟨_ | ⟨v2, b2⟩, tr2⟩
    · refine ⟨tr2, rfl, ?_⟩
      intro v3
      have := legacy_phase_no_vmm srv v3
      rw [hl] at this
      exact this
    · refine ⟨tr2, rfl, ?_⟩
      intro v3
      have := legacy_phase_no_vmm srv v3
      rw [hl] at this
      exact this
  · exact ⟨[], by simp, by intro v2; simp⟩

/-- C6: a 404 on a VMM version endpoint is never retried — the retry
loop issues exactly one request to that version and immediately falls
through as version-unsupported; in a fresh `get_vms` call whose first
candidate v4.1 answers 404 on its first attempt, the trace is a single
v4.1 request immediately followed by a v4.0 request (the next candidate)
rather than backoff-and-retry of v4.1, and v4.1 is never requested again
in that call. -/
theorem c6_404_not_retried {α : Type} (srv : MServer α) (ra : Option Nat) (b : Page α)
    (h404 : srv.vmm "v4.1" 0 = .http 404 ra b) :
    (∀ (v : String) (ra2 : Option Nat) (b2 : Page α),
      srv.vmm v 0 = .http 404 ra2 b2 → ver_loop srv v 0 4 = (.moveNext, 1, false)) ∧
    (∃ rest, (get_vms none srv).trace =
        MEndpoint.vmm "v4.1" :: MEndpoint.vmm "v4.0" :: rest ∧
      MEndpoint.vmm "v4.1" ∉ rest) := by
  have h1 : ∀ (v : String) (ra2 : Option Nat) (b2 : Page α),
      srv.vmm v 0 = .http 404 ra2 b2 → ver_loop srv v 0 4 = (.moveNext, 1, false) := by
    intro v ra2 b2 h
    rw [show (4 : Nat) = 3 + 1 from rfl, ver_loop_step, h]
    norm_num
  refine ⟨h1, ?_⟩
  have hl1 := h1 "v4.1" ra b h404
  obtain ⟨t2, htr, ht2⟩ := get_vms_trace_split srv none
  have hv : versions_to_try none = "v4.1" :: "v4.0" :: ["v3.0"] := rfl
  rw [hv] at htr
  have e1 : (try_versions srv ("v4.1" :: "v4.0" :: ["v3.0"])).2.1 =
      List.replicate 1 (MEndpoint.vmm "v4.1") ++
        (try_versions srv ("v4.0" :: ["v3.0"])).2.1 := by
    rw [try_versions]
    simp [hl1]
  obtain ⟨t, ht, htmem⟩ := try_versions_trace_shape srv "v4.0" ["v3.0"]
  have hpos : 0 < (ver_loop srv "v4.0" 0 4).2.1 := ver_loop_count_pos srv "v4.0" 0 3
  rcases hcnt : (ver_loop srv "v4.0" 0 4).2.1 with _ | k
  · rw [hcnt] at hpos; omega
  rw [hcnt] at ht
  refine ⟨List.replicate k (MEndpoint.vmm "v4.0") ++ t ++ t2, ?_, ?_⟩
  · rw [htr, e1, ht]
    simp [List.replicate_succ]
  · intro hmem
    rcases List.mem_append.mp hmem with hmem1 | hmem1
    · rcases List.mem_append.mp hmem1 with hmem2 | hmem2
      · have := List.eq_of_mem_replicate hmem2
        exact absurd this (by decide)
      · rcases htmem _ hmem2 with ⟨u, hu, he⟩
        simp at hu
        subst hu
        exact absurd he (by decide)
    · exact ht2 "v4.1" hmem1

/-- A server whose `v4.1` endpoint always returns 404 and whose `v4.0`
endpoint serves the list; legacy paths all fail. -/
def c6srv : MServer Nat where
  vmm := fun v _ =>
    if v = "v4.1" then .http 404 none ⟨[], 0⟩
    else if v = "v4.0" then .http 200 none ⟨[3], 1⟩
    else .http 404 none ⟨[], 0⟩
  legV3 := .netErr
  legV2 := .netErr
  legV2P := .netErr

theorem c6_404_not_retried_witness :
    ver_loop c6srv "v4.1" 0 4 = (.moveNext, 1, false) ∧
    (get_vms none c6srv).trace = [MEndpoint.vmm "v4.1", MEndpoint.vmm "v4.0"] := by
  have h := c6_404_not_retried c6srv none ⟨[], 0⟩ rfl
  refine ⟨h.1 "v4.1" none ⟨[], 0⟩ rfl, ?_⟩
  rfl

/-- C2 amended: in each `get_vms` call of a session whose
`_working_vmm_version` is set to `w`, the first request goes to `w`; a
success of the retry loop on `w` returns that body and leaves the
working version unchanged at `w`; and when a call succeeds with a
working version other than `w`, the retry loop on `w` fell through
because some attempt on `w` returned 404 (not found) — or because the
rate-limit retries on `w` were exhausted, the final attempt answering
429.  (The claim as frozen allows only the 404 trigger; the 429
exhaustion is the extra case the code exhibits.) -/
theorem c2_amended_session_invariant {α : Type} (w : String) (srv : MServer α) :
    (get_vms (some w) srv).trace.head? = some (MEndpoint.vmm w) ∧
    (∀ b : Page α, (ver_loop srv w 0 4).1 = .success b →
      (get_vms (some w) srv).result = .ok b ∧
      (get_vms (some w) srv).working = some w) ∧
    (∀ b : Page α, (get_vms (some w) srv).result = .ok b →
      (get_vms (some w) srv).working ≠ some w →
      MCls.notFound ∈ ((List.range 4).map fun a => mcls (srv.vmm w a)) ∨
      ((List.range 4).map fun a => mcls (srv.vmm w a)).getLast? = some .rate) := by
  have hv : versions_to_try (some w) =
      w :: vmm_api_versions.filter (fun v => v ≠ w) := rfl
  have hgv : ∀ b2 : Page α, (ver_loop srv w 0 4).1 = VOut.success b2 →
      get_vms (some w) srv =
        ⟨.ok b2, some w, (try_versions srv (versions_to_try (some w))).2.1⟩ := by
    intro b2 hb
    have h1 : (try_versions srv (versions_to_try (some w))).1 = .success w b2 := by
      rw [hv, try_versions]
      simp only [hb]
    rw [get_vms, h1]
  refine ⟨?_, ?_, ?_⟩
  · obtain ⟨t2, htr, _⟩ := get_vms_trace_split srv (some w)
    rw [hv] at htr
    obtain ⟨t, ht, _⟩ :=
      try_versions_trace_shape srv w (vmm_api_versions.filter (fun v => v ≠ w))
    have hpos : 0 < (ver_loop srv w 0 4).2.1 := ver_loop_count_pos srv w 0 3
    rcases hcnt : (ver_loop srv w 0 4).2.1 with _ | k
    · rw [hcnt] at hpos; omega
    rw [hcnt] at ht
    rw [htr, ht]
    simp [List.replicate_succ]
  · intro b hb
    rw [hgv b hb]
    exact ⟨rfl, rfl⟩
  · intro b hres hwork
    rcases hcase : (ver_loop srv w 0 4).1 with b2 | _ | _
    · exact absurd (hgv b2 hcase ▸ rfl) hwork
    · have hwalk := ver_loop_walk srv w 4 0
      rw [hcase] at hwalk
      have hmapeq : ((List.range 4).map fun i => mcls (srv.vmm w (0 + i))) =
          ((List.range 4).map fun a => mcls (srv.vmm w a)) := by
        refine List.map_congr_left ?_
        intro k _
        norm_num
      have hw2 : walk ((List.range 4).map fun a => mcls (srv.vmm w a)) = .wmove := by
        rw [← hmapeq, ← hwalk]
        rfl
      rcases walk_wmove _ hw2 with h1 | h1 | h1
      · simp at h1
      · exact Or.inl h1
      · exact Or.inr h1
    · have h1 : (try_versions srv (versions_to_try (some w))).1 = .fatal := by
        rw [hv, try_versions]
        simp only [hcase]
      have h2 : (get_vms (some w) srv).result = .error .requestFailed := by
        rw [get_vms, h1]
      rw [h2] at hres
      cases hres

/-- A server on which the cached working version v4.1 is rate limited on
all four attempts while v4.0 answers 200: the retry loop on v4.1 is
exhausted through 429s with no 404 ever returned, yet the call succeeds
and rewrites the working version down to v4.0. -/
def c2srv : MServer Nat where
  vmm := fun v _ =>
    if v = "v4.1" then .http 429 (some 1) ⟨[], 0⟩
    else if v = "v4.0" then .http 200 none ⟨[5], 1⟩
    else .http 404 none ⟨[], 0⟩
  legV3 := .netErr
  legV2 := .netErr
  legV2P := .netErr

/-- C2 counterexample: with the working version set to v4.1 and the
server of `c2srv`, every one of the four v4.1 attempts is classified as
rate limited (429) — none is a 404/not-found — and still the call
returns successfully having silently switched the session to the lower
version v4.0. -/
theorem c2_counterexample_429_switch :
    (get_vms (some "v4.1") c2srv).working = some "v4.0" ∧
    (get_vms (some "v4.1") c2srv).result = .ok ⟨[5], 1⟩ ∧
    ((List.range 4).all fun a =>
      decide (mcls (c2srv.vmm "v4.1" a) = MCls.rate)) = true := by
  exact ⟨rfl, rfl, rfl⟩

/-- A server that immediately serves the working version. -/
def c2srvOK : MServer Nat where
  vmm := fun _ _ => .http 200 none ⟨[1], 1⟩
  legV3 := .netErr
  legV2 := .netErr
  legV2P := .netErr

theorem c2_amended_session_invariant_witness :
    (get_vms (some "v4.1") c2srvOK).trace.head? = some (MEndpoint.vmm "v4.1") ∧
    (get_vms (some "v4.1") c2srvOK).result = .ok ⟨[1], 1⟩ ∧
    (get_vms (some "v4.1") c2srvOK).working = some "v4.1" ∧
    (MCls.notFound ∈ ((List.range 4).map fun a => mcls (c2srv.vmm "v4.1" a)) ∨
      ((List.range 4).map fun a => mcls (c2srv.vmm "v4.1" a)).getLast? =
        some MCls.rate) := by
  have h1 := c2_amended_session_invariant (α := Nat) "v4.1" c2srvOK
  have h2 := c2_amended_session_invariant (α := Nat) "v4.1" c2srv
  refine ⟨h1.1, (h1.2.1 ⟨[1], 1⟩ rfl).1, (h1.2.1 ⟨[1], 1⟩ rfl).2, ?_⟩
  exact h2.2.2 ⟨[5], 1⟩ rfl (by decide)

end CMove

/-- A reference subobject ({name, extId}) nested in v4 records. -/
structure Ref where
  name : Option String
  extId : Option String
  deriving Repr, DecidableEq

/-- A raw v4 VM record: exactly the keys read by the scripts, each
possibly absent (the `dict.get` default is then used). -/
structure RawV4 where
  name : Option String
  extId : Option String
  powerState : Option String
  numSockets : Option Nat
  numCoresPerSocket : Option Nat
  numThreadsPerCore : Option Nat
  memorySizeBytes : Option Nat
  cluster : Option Ref
  host : Option Ref
  deriving Repr, DecidableEq

/-- v3 `spec.resources` subobject. -/
structure V3Resources where
  power_state : Option String
  num_sockets : Option Nat
  num_vcpus_per_socket : Option Nat
  memory_size_mib : Option Nat
  deriving Repr, DecidableEq

/-- v3 `spec` subobject. -/
structure V3Spec where
  name : Option String
  resources : Option V3Resources
  cluster_reference : Option Ref
  deriving Repr, DecidableEq

/-- v3 `metadata` subobject. -/
structure V3Metadata where
  uuid : Option String
  deriving Repr, DecidableEq

/-- A raw v3 VM record (the top-level `name` is the fallback read by the
v3 branch of the normalizer). -/
structure RawV3 where
  name : Option String
  spec : Option V3Spec
  metadata : Option V3Metadata
  deriving Repr, DecidableEq

/-- A raw v2 VM record. -/
structure RawV2 where
  name : Option String
  uuid : Option String
  power_state : Option String
  num_cores_per_vcpu : Option Nat
  num_vcpus : Option Nat
  memory_mb : Option Nat
  host_name : Option String
  deriving Repr, DecidableEq

/-- A raw record of one of the supported API generations. -/
inductive RawVM
  | v4 (r : RawV4)
  | v3 (r : RawV3)
  | v2 (r : RawV2)
  deriving Repr, DecidableEq

/-- Python `round(x, 2)` modelled on the rationals (the source computes
on floats; the claims here depend only on exact small values). -/
def round2 (q : ℚ) : ℚ := (round (q * 100) : ℤ) / 100

namespace VmList

/-- The canonical record produced by `format_vm_info`. -/
structure CanonVM where
  name : String
  uuid : String
  power_state : String
  cpu_sockets : Nat
  cpu_cores_per_socket : Nat
  memory_gb : ℚ
  cluster : String
  host : String
  deriving Repr, DecidableEq

/-- `NutanixVMClient.format_vm_info`: per-version field mapping with
`dict.get` defaults — strings default to "N/A", memory to 0, CPU counts
to 1.  In the v3 branch the name is `spec.name`, falling back to the
top-level `name`, then to "N/A"; the v3 host and the v2 cluster are
always "N/A". -/
def format_vm_info : RawVM → CanonVM
  | .v4 r =>
    { name := r.name.getD "N/A"
      uuid := r.extId.getD "N/A"
      power_state := r.powerState.getD "N/A"
      cpu_sockets := r.numSockets.getD 1
      cpu_cores_per_socket := r.numCoresPerSocket.getD 1
      memory_gb := round2 ((r.memorySizeBytes.getD 0 : ℚ) / 1024 ^ 3)
      cluster := ((r.cluster.getD ⟨none, none⟩).name).getD "N/A"
      host := ((r.host.getD ⟨none, none⟩).name).getD "N/A" }
  | .v3 r =>
    { name :=
        match r.spec.bind V3Spec.name with
        | some n => n
        | none => r.name.getD "N/A"
      uuid := (r.metadata.bind V3Metadata.uuid).getD "N/A"
      power_state :=
        ((r.spec.bind V3Spec.resources).bind V3Resources.power_state).getD "N/A"
      cpu_sockets :=
        ((r.spec.bind V3Spec.resources).bind V3Resources.num_sockets).getD 1
      cpu_cores_per_socket :=
        ((r.spec.bind V3Spec.resources).bind V3Resources.num_vcpus_per_socket).getD 1
      memory_gb := round2
        ((((r.spec.bind V3Spec.resources).bind V3Resources.memory_size_mib).getD 0 : ℚ)
          / 1024)
      cluster := ((r.spec.bind V3Spec.cluster_reference).bind Ref.name).getD "N/A"
      host := "N/A" }
  | .v2 r =>
    { name := r.name.getD "N/A"
      uuid := r.uuid.getD "N/A"
      power_state := r.power_state.getD "N/A"
      cpu_sockets := r.num_cores_per_vcpu.getD 1
      cpu_cores_per_socket := r.num_vcpus.getD 1
      memory_gb := round2 ((r.memory_mb.getD 0 : ℚ) / 1024)
      cluster := "N/A"
      host := r.host_name.getD "N/A" }

/-- The vCPU count derived from a normalized record by `print_vm_table`
and `export_to_csv`: sockets times cores per socket. -/
def vm_list_vcpus (c : CanonVM) : Nat := c.cpu_sockets * c.cpu_cores_per_socket

end VmList

namespace CMove

/-- The fields extracted by `format_vm_output` (common to its CSV and
table branches). -/
structure VmOut where
  name : String
  extId : String
  powerState : String
  memoryGb : ℚ
  numVcpus : Nat
  clusterId : String
  hostId : String
  deriving Repr, DecidableEq

/-- `format_vm_output` of list_vms.py: field extraction from a raw v4
record; memory is bytes over 1024 cubed when `memorySizeBytes` is
present and truthy, 0 otherwise; the vCPU count is sockets times
cores-per-socket times threads-per-core, each factor defaulting to 1. -/
def format_vm_output (vm : RawV4) : VmOut :=
  { name := vm.name.getD "N/A"
    extId := vm.extId.getD "N/A"
    powerState := vm.powerState.getD "N/A"
    memoryGb :=
      match vm.memorySizeBytes with
      | some bts => if bts ≠ 0 then (bts : ℚ) / 1024 ^ 3 else 0
      | none => 0
    numVcpus := vm.numSockets.getD 1 * vm.numCoresPerSocket.getD 1 *
      vm.numThreadsPerCore.getD 1
    clusterId := ((vm.cluster.getD ⟨none, none⟩).extId).getD "N/A"
    hostId := ((vm.host.getD ⟨none, none⟩).extId).getD "N/A" }

end CMove

/-- A v4 record with every key absent. -/
def emptyRawV4 : RawV4 := ⟨none, none, none, none, none, none, none, none, none⟩

/-- A v3 record with every key absent. -/
def emptyRawV3 : RawV3 := ⟨none, none, none⟩

/-- A v2 record with every key absent. -/
def emptyRawV2 : RawV2 := ⟨none, none, none, none, none, none, none⟩

/-- C7 counterexample: on a v4 record with every field missing the
normalizer does not default the missing numeric CPU fields to the
claimed sentinel 0 — `vm.get('numSockets', 1)` defaults them to 1. -/
theorem c7_counterexample_cpu_default_is_one :
    (VmList.format_vm_info (RawVM.v4 emptyRawV4)).cpu_sockets = 1 ∧
    (VmList.format_vm_info (RawVM.v4 emptyRawV4)).cpu_sockets ≠ 0 :=
  ⟨rfl, by decide⟩

/-- C7 amended: the normalizer is a total function on raw records of
every supported version — missing fields never make it fail — and each
missing string field defaults to the sentinel "N/A" and missing memory
to 0, while the missing CPU-count fields (sockets and cores per socket,
and their v3/v2 counterparts) default to 1 rather than 0. -/
theorem c7_amended_normalizer_defaults :
    (∀ r : RawV4,
      (VmList.format_vm_info (.v4 { r with name := none })).name = "N/A" ∧
      (VmList.format_vm_info (.v4 { r with extId := none })).uuid = "N/A" ∧
      (VmList.format_vm_info (.v4 { r with powerState := none })).power_state = "N/A" ∧
      (VmList.format_vm_info (.v4 { r with cluster := none })).cluster = "N/A" ∧
      (VmList.format_vm_info (.v4 { r with host := none })).host = "N/A" ∧
      (VmList.format_vm_info (.v4 { r with memorySizeBytes := none })).memory_gb = 0 ∧
      (VmList.format_vm_info (.v4 { r with numSockets := none })).cpu_sockets = 1 ∧
      (VmList.format_vm_info
        (.v4 { r with numCoresPerSocket := none })).cpu_cores_per_socket = 1) ∧
    VmList.format_vm_info (.v3 emptyRawV3) =
      ⟨"N/A", "N/A", "N/A", 1, 1, 0, "N/A", "N/A"⟩ ∧
    VmList.format_vm_info (.v2 emptyRawV2) =
      ⟨"N/A", "N/A", "N/A", 1, 1, 0, "N/A", "N/A"⟩ ∧
    (∀ r3 : RawV3,
      (VmList.format_vm_info (.v3 { r3 with metadata := none })).uuid = "N/A" ∧
      (VmList.format_vm_info (.v3 { r3 with spec := none, name := none })).name = "N/A") ∧
    (∀ r2 : RawV2,
      (VmList.format_vm_info (.v2 { r2 with host_name := none })).host = "N/A" ∧
      (VmList.format_vm_info (.v2 { r2 with num_cores_per_vcpu := none })).cpu_sockets = 1) := by
  refine ⟨?_, ?_, ?_, ?_, ?_⟩
  · intro r
    refine ⟨rfl, rfl, rfl, rfl, rfl, ?_, rfl, rfl⟩
    simp [VmList.format_vm_info, round2]
  · simp [VmList.format_vm_info, round2, emptyRawV3]
  · simp [VmList.format_vm_info, round2, emptyRawV2]
  · intro r3
    exact ⟨rfl, rfl⟩
  · intro r2
    exact ⟨rfl, rfl⟩

/-- A v4 record with 2 sockets, 3 cores per socket, 2 threads per
core. -/
def c8raw : RawV4 :=
  { emptyRawV4 with
    numSockets := some 2, numCoresPerSocket := some 3, numThreadsPerCore := some 2 }

/-- C8 counterexample: for the normalized record of `c8raw` the vCPU
count derived by the vm-list tool is 6 = sockets x cores-per-socket,
not sockets x cores-per-socket x threads-per-core = 12 — the
interactive normalizer drops the threads factor. -/
theorem c8_counterexample_threads_ignored :
    VmList.vm_list_vcpus (VmList.format_vm_info (RawVM.v4 c8raw)) = 6 ∧
    VmList.vm_list_vcpus (VmList.format_vm_info (RawVM.v4 c8raw)) ≠
      c8raw.numSockets.getD 1 * c8raw.numCoresPerSocket.getD 1 *
        c8raw.numThreadsPerCore.getD 1 :=
  ⟨rfl, by decide⟩

/-- C8 amended: `format_vm_output` (VM-Container-Move) derives the vCPU
count as sockets x cores-per-socket x threads-per-core with each missing
factor defaulting to 1, exactly as the claim states; the vm-list
interactive tool, however, derives sockets x cores-per-socket from its
normalized record, ignoring threads-per-core. -/
theorem c8_amended_vcpu_derivation :
    (∀ vm : RawV4, (CMove.format_vm_output vm).numVcpus =
      vm.numSockets.getD 1 * vm.numCoresPerSocket.getD 1 *
        vm.numThreadsPerCore.getD 1) ∧
    (∀ vm : RawV4, VmList.vm_list_vcpus (VmList.format_vm_info (RawVM.v4 vm)) =
      vm.numSockets.getD 1 * vm.numCoresPerSocket.getD 1) :=
  ⟨fun _ => rfl, fun _ => rfl⟩

namespace NetCat

/-- A JSON value as handled by the category assigner: the v3 VM document
is a nested dict of strings, numbers, objects, arrays. -/
inductive JVal where
  | str (s : String)
  | num (n : Int)
  | obj (fields : List (String × JVal))
  | arr (elems : List JVal)

/-- First-match lookup: Python `d[k]` / `d.get(k)` (dict keys are
unique, so the first match is the match). -/
def jLookup (k : String) : List (String × JVal) → Option JVal
  | [] => none
  | (k2, v) :: rest => if k2 = k then some v else jLookup k rest

/-- Python `d[k] = v`: replace the value in place when the key exists
(insertion position preserved), append the binding otherwise. -/
def pySet (k : String) (v : JVal) : List (String × JVal) → List (String × JVal)
  | [] => [(k, v)]
  | (k2, v2) :: rest =>
    if k2 = k then (k2, v) :: rest
    else (k2, v2) :: pySet k v rest

/-- Python `if k in d: del d[k]`: drop the binding of the key. -/
def pyDel (k : String) : List (String × JVal) → List (String × JVal)
  | [] => []
  | (k2, v2) :: rest => if k2 = k then rest else (k2, v2) :: pyDel k rest

/-- `VMNetworkCategoryAssigner.assign_category_to_vm_v3` after the GET
of the VM document has succeeded: read `metadata.categories` (default
empty dict), set the category key, write the categories back under
`metadata`, delete the read-only `status` field, PUT the document, and
return True exactly when the PUT status is 200 or 202.  A document with
no dict under `metadata` (the source indexes `vm_data["metadata"]`
directly) or with a non-dict `categories` raises inside the `try` and
returns False with no PUT sent (`none` as the sent document). -/
def assign_category_to_vm_v3 (fetched : List (String × JVal))
    (key value : String) (putStatus : Nat) :
    Bool × Option (List (String × JVal)) :=
  match jLookup "metadata" fetched with
  | some (.obj meta) =>
    let cats? : Option (List (String × JVal)) :=
      match jLookup "categories" meta with
      | some (.obj cats) => some cats
      | none => some []
      | some _ => none
    match cats? with
    | none => (false, none)
    | some cats =>
      let cats2 := pySet key (.str value) cats
      let meta2 := pySet "categories" (.obj cats2) meta
      let sent := pyDel "status" (pySet "metadata" (.obj meta2) fetched)
      (decide (putStatus = 200 ∨ putStatus = 202), some sent)
  | _ => (false, none)

theorem jLookup_pySet_self (k : String) (v : JVal) :
    ∀ l, jLookup k (pySet k v l) = some v := by
  intro l
  induction l with
  | nil => simp [pySet, jLookup]
  | cons h rest ih =>
    rcases h with ⟨k2, v2⟩
    by_cases hk : k2 = k <;> simp [pySet, jLookup, hk, ih]

theorem jLookup_pySet_ne (k k1 : String) (v : JVal) (h : k1 ≠ k) :
    ∀ l, jLookup k1 (pySet k v l) = jLookup k1 l := by
  intro l
  induction l with
  | nil =>
    simp only [pySet, jLookup]
    rw [if_neg (fun he => h he.symm)]
  | cons hd rest ih =>
    rcases hd with ⟨k2, v2⟩
    by_cases hk : k2 = k
    · subst hk
      have hne : k2 ≠ k1 := fun he => h he.symm
      simp [pySet, jLookup, hne]
    · simp only [pySet, if_neg hk, jLookup]
      by_cases hk1 : k2 = k1
      · simp [hk1]
      · simp [hk1, ih]

theorem jLookup_eq_none (k : String) :
    ∀ l, k ∉ l.map Prod.fst → jLookup k l = none := by
  intro l
  induction l with
  | nil => intro _; rfl
  | cons hd rest ih =>
    rcases hd with ⟨k2, v2⟩
    intro hmem
    simp only [List.map_cons, List.mem_cons] at hmem
    push_neg at hmem
    have hk : k2 ≠ k := fun he => hmem.1 he.symm
    simp [jLookup, hk, ih hmem.2]

/-- Keys after a Python dict assignment: unchanged when the key was
present, appended otherwise. -/
theorem keys_pySet (k : String) (v : JVal) :
    ∀ l, (pySet k v l).map Prod.fst =
      if k ∈ l.map Prod.fst then l.map Prod.fst else l.map Prod.fst ++ [k] := by
  intro l
  induction l with
  | nil => simp [pySet]
  | cons hd rest ih =>
    rcases hd with ⟨k2, v2⟩
    by_cases hk : k2 = k
    · subst hk
      simp [pySet]
    · simp only [pySet, if_neg hk, List.map_cons, ih, List.mem_cons]
      have hne : ¬ k = k2 := fun he => hk he.symm
      by_cases hmem : k ∈ rest.map Prod.fst
      · simp [hmem, hne]
      · simp [hmem, hne]

theorem pySet_nodup (k : String) (v : JVal) (l : List (String × JVal))
    (h : (l.map Prod.fst).Nodup) : ((pySet k v l).map Prod.fst).Nodup := by
  rw [keys_pySet]
  by_cases hmem : k ∈ l.map Prod.fst
  · simpa [hmem] using h
  · simp [hmem, List.nodup_append, h]

theorem jLookup_pyDel_self (k : String) :
    ∀ l, (l.map Prod.fst).Nodup → jLookup k (pyDel k l) = none := by
  intro l
  induction l with
  | nil => intro _; rfl
  | cons hd rest ih =>
    rcases hd with ⟨k2, v2⟩
    intro h
    simp only [List.map_cons, List.nodup_cons] at h
    by_cases hk : k2 = k
    · simp only [pyDel, hk, if_pos rfl]
      exact jLookup_eq_none k rest (hk ▸ h.1)
    · simp [pyDel, jLookup, hk, ih h.2]

theorem jLookup_pyDel_ne (k k1 : String) (h : k1 ≠ k) :
    ∀ l, jLookup k1 (pyDel k l) = jLookup k1 l := by
  intro l
  induction l with
  | nil => rfl
  | cons hd rest ih =>
    rcases hd with ⟨k2, v2⟩
    by_cases hk : k2 = k
    · have hne : ¬ (k = k1) := fun he => h he.symm
      simp [pyDel, jLookup, hk, hne]
    · by_cases hk1 : k2 = k1
      · simp [pyDel, jLookup, hk, hk1, h]
      · simp [pyDel, jLookup, hk, hk1, ih]

/-- C10: when the fetched VM document carries a dict under `metadata`
whose `categories` entry is absent or a dict, and its keys are unique
(as Python dicts guarantee), the assigner always issues the PUT and
returns True exactly when the PUT answers 200 or 202; the document sent
is the fetched document with the read-only `status` key removed, every
other key outside `metadata` unchanged, every `metadata` entry other
than `categories` unchanged, and `metadata.categories` equal to the
fetched categories mapping extended so that the given key maps to the
given value, all other category keys preserved. -/
theorem c10_assign_category_frame (fetched meta : List (String × JVal))
    (key value : String) (putStatus : Nat)
    (hmeta : jLookup "metadata" fetched = some (.obj meta))
    (hnodup : (fetched.map Prod.fst).Nodup)
    (hcats : jLookup "categories" meta = none ∨
      ∃ cats, jLookup "categories" meta = some (.obj cats)) :
    ∃ sent, (assign_category_to_vm_v3 fetched key value putStatus).2 = some sent ∧
      ((assign_category_to_vm_v3 fetched key value putStatus).1 = true ↔
        (putStatus = 200 ∨ putStatus = 202)) ∧
      jLookup "status" sent = none ∧
      (∀ k, k ≠ "status" → k ≠ "metadata" → jLookup k sent = jLookup k fetched) ∧
      ∃ meta2, jLookup "metadata" sent = some (.obj meta2) ∧
        (∀ mk2, mk2 ≠ "categories" → jLookup mk2 meta2 = jLookup mk2 meta) ∧
        ∃ cats2, jLookup "categories" meta2 = some (.obj cats2) ∧
          jLookup key cats2 = some (.str value) ∧
          (∀ ck, ck ≠ key → jLookup ck cats2 =
            jLookup ck (match jLookup "categories" meta with
              | some (.obj cats) => cats
              | _ => [])) := by
  have hmain : ∀ cats : List (String × JVal),
      (match jLookup "categories" meta with
        | some (.obj c) => some c
        | none => some ([] : List (String × JVal))
        | some _ => none) = some cats →
      (match jLookup "categories" meta with
        | some (.obj c) => c
        | _ => ([] : List (String × JVal))) = cats →
      ∃ sent, (assign_category_to_vm_v3 fetched key value putStatus).2 = some sent ∧
      ((assign_category_to_vm_v3 fetched key value putStatus).1 = true ↔
        (putStatus = 200 ∨ putStatus = 202)) ∧
      jLookup "status" sent = none ∧
      (∀ k, k ≠ "status" → k ≠ "metadata" → jLookup k sent = jLookup k fetched) ∧
      ∃ meta2, jLookup "metadata" sent = some (.obj meta2) ∧
        (∀ mk2, mk2 ≠ "categories" → jLookup mk2 meta2 = jLookup mk2 meta) ∧
        ∃ cats2, jLookup "categories" meta2 = some (.obj cats2) ∧
          jLookup key cats2 = some (.str value) ∧
          (∀ ck, ck ≠ key → jLookup ck cats2 =
            jLookup ck (match jLookup "categories" meta with
              | some (.obj cats) => cats
              | _ => [])) := by
    intro cats hc1 hc2
    have hfun : assign_category_to_vm_v3 fetched key value putStatus =
        (decide (putStatus = 200 ∨ putStatus = 202),
          some (pyDel "status" (pySet "metadata"
            (.obj (pySet "categories" (.obj (pySet key (.str value) cats)) meta))
            fetched))) := by
      rw [assign_category_to_vm_v3, hmeta]
      simp only [hc1]
    refine ⟨pyDel "status" (pySet "metadata"
        (.obj (pySet "categories" (.obj (pySet key (.str value) cats)) meta))
        fetched), by rw [hfun], ?_, ?_, ?_, ?_⟩
    · rw [hfun]
      simp
    · exact jLookup_pyDel_self "status" _
        (pySet_nodup "metadata" _ fetched hnodup)
    · intro k hks hkm
      rw [jLookup_pyDel_ne "status" k hks _,
        jLookup_pySet_ne "metadata" k _ hkm _]
    · refine ⟨pySet "categories" (.obj (pySet key (.str value) cats)) meta, ?_, ?_, ?_⟩
      · rw [jLookup_pyDel_ne "status" "metadata" (by decide) _,
          jLookup_pySet_self "metadata" _ fetched]
      · intro mk2 hmk
        exact jLookup_pySet_ne "categories" mk2 _ hmk meta
      · refine ⟨pySet key (.str value) cats, ?_, ?_, ?_⟩
        · exact jLookup_pySet_self "categories" _ meta
        · exact jLookup_pySet_self key _ cats
        · intro ck hck
          rw [hc2]
          exact jLookup_pySet_ne key ck _ hck cats
  rcases hcats with hc | ⟨cats, hc⟩
  · exact hmain [] (by rw [hc]) (by rw [hc])
  · exact hmain cats (by rw [hc]) (by rw [hc])

/-- The `metadata` dict of the concrete fetched document below. -/
def c10meta : List (String × JVal) :=
  [("uuid", .str "u1"), ("categories", .obj [("env", .str "prod")])]

/-- A concrete fetched VM document with a spec, metadata carrying one
existing category, and a read-only status section. -/
def c10doc : List (String × JVal) :=
  [("spec", .obj []),
   ("metadata", .obj c10meta),
   ("status", .obj [("state", .str "COMPLETE")])]

theorem c10_assign_category_frame_witness :
    ∃ sent, (assign_category_to_vm_v3 c10doc "tier" "gold" 200).2 = some sent ∧
      (assign_category_to_vm_v3 c10doc "tier" "gold" 200).1 = true ∧
      jLookup "status" sent = none ∧
      jLookup "spec" sent = jLookup "spec" c10doc ∧
      ∃ meta2, jLookup "metadata" sent = some (.obj meta2) ∧
        jLookup "uuid" meta2 = some (.str "u1") ∧
        ∃ cats2, jLookup "categories" meta2 = some (.obj cats2) ∧
          jLookup "tier" cats2 = some (.str "gold") ∧
          jLookup "env" cats2 = some (.str "prod") := by
  obtain ⟨sent, h1, h2, h3, h4, meta2, h5, h6, cats2, h7, h8, h9⟩ :=
    c10_assign_category_frame c10doc c10meta "tier" "gold" 200 rfl
      (by decide) (Or.inr ⟨[("env", .str "prod")], rfl⟩)
  refine ⟨sent, h1, h2.mpr (Or.inl rfl), h3,
    h4 "spec" (by decide) (by decide), meta2, h5, ?_, cats2, h7, h8, ?_⟩
  · rw [h6 "uuid" (by decide)]
    rfl
  · rw [h9 "env" (by decide)]
    rfl

end NetCat

end Ntnx
